import Mathlib

/-!
Verification of the speculative-decoding coordinator
(src/vllm/spec_decode/spec_decode_worker.py) against its specification.

The Python source is shallowly embedded: pure functions become Lean
functions, the driver / non-driver control flow becomes functions that
return the ordered list of model invocations they issue, and the mutable
bookkeeping (the bonus-token set and the request-to-sequence-ids map)
becomes explicit state passing.  Machine integers are modelled as Nat/Int
(none of the arithmetic in this file can overflow in Python, whose ints
are unbounded); the one floating-point computation
(split_num_cache_blocks_evenly) is modelled by an exact embedding of
IEEE-754 double rounding, see the comments there.

Functions of this repository that live outside the given source file
(vllm/spec_decode/util.py and vllm/sequence.py helpers) are modelled from
the specification; each such definition carries a doc comment starting
with "Modelled from the spec:".
-/

/-- Kind of model invocation issued by a rank.  A `proposer` event is one
forward execution of the draft (proposer) model, a `scorer` event one
forward execution of the target (scorer) model, and `broadcast` is the
driver's control-dict broadcast. -/
inductive Event where
  | proposer : Event
  | scorer : Event
  | broadcast : Event
deriving DecidableEq, Repr

/-- True for events that are model executions (not control traffic). -/
def Event.isCall : Event → Bool
  | Event.proposer => true
  | Event.scorer => true
  | Event.broadcast => false

/-- The control dict broadcast from the driver rank to all peer ranks
(spec section 6).  An empty dict is modelled as `none` at the receiver. -/
structure BroadcastDict where
  num_lookahead_slots : Nat
  no_spec : Bool
  disable_all_speculation : Bool
  run_spec_proposer_for_prefill : Bool
deriving DecidableEq, Repr

/-- Embedding of SpecDecodeWorker._run_non_driver_rank.  The input is the
received broadcast (`none` for the empty dict); the output is the boolean
return value of the Python method paired with the ordered list of model
executions it issued.  The lets mirror the successive statements of the
source: first the scorer when no_spec, then max(num_lookahead_slots, 1)
proposer runs unless all speculation is disabled, then (when speculating)
the scorer followed by one extra proposer run for prefill sync. -/
def _run_non_driver_rank : Option BroadcastDict → Bool × List Event
  | none => (false, [])
  | some data =>
    let calls0 : List Event := []
    let calls1 := if data.no_spec then calls0 ++ [Event.scorer] else calls0
    let calls2 :=
      if data.disable_all_speculation then calls1
      else calls1 ++ List.replicate (max data.num_lookahead_slots 1) Event.proposer
    let calls3 :=
      if data.no_spec then calls2
      else if data.run_spec_proposer_for_prefill then
        calls2 ++ [Event.scorer, Event.proposer]
      else calls2 ++ [Event.scorer]
    (true, calls3)

/-- Embedding of SpecDecodeWorker.start_worker_execution_loop on a stream
of incoming broadcasts: keep running _run_non_driver_rank while it
returns true, accumulating the model executions it issues. -/
def start_worker_execution_loop : List (Option BroadcastDict) → List Event
  | [] => []
  | d :: rest =>
    let step := _run_non_driver_rank d
    if step.1 then step.2 ++ start_worker_execution_loop rest else step.2

/-- The per-broadcast call sequence exactly as claim C6 words it: scorer
once if no_spec; then proposer max(num_lookahead_slots, 1) times if not
disable_all_speculation; then, if not no_spec, scorer once followed by
one additional proposer call if run_spec_proposer_for_prefill. -/
def claimedNonDriverCalls (b : BroadcastDict) : List Event :=
  (if b.no_spec then [Event.scorer] else []) ++
  (if b.disable_all_speculation then []
   else List.replicate (max b.num_lookahead_slots 1) Event.proposer) ++
  (if b.no_spec then []
   else [Event.scorer] ++
     (if b.run_spec_proposer_for_prefill then [Event.proposer] else []))

/-- The threshold field set by SpecDecodeWorker.__init__ from the
disable_by_batch_size argument: Python's `x or float("inf")` maps every
falsy value (None or 0) to infinity, modelled as the top element of
`WithTop Nat`. -/
def disable_by_batch_size_field (disable_by_batch_size : Option Nat) : WithTop Nat :=
  match disable_by_batch_size with
  | none => ⊤
  | some 0 => ⊤
  | some n => (n : WithTop Nat)

/-- Embedding of SpecDecodeWorker._should_disable_all_speculation: the
running queue size is compared against the (possibly infinite) threshold.
Python compares an int against float("inf"); `WithTop Nat` models that
order faithfully (every finite value is below infinity). -/
def _should_disable_all_speculation (threshold : WithTop Nat)
    (running_queue_size : Nat) : Bool :=
  decide ((running_queue_size : WithTop Nat) ≥ threshold)

/-- Bookkeeping state owned by the driver rank: the set of sequence ids
that received a bonus token in their last forward pass, and the
request-id to sequence-ids map.  Python's defaultdict(set) is modelled as
a total function with default value the empty set (deleting a key and
re-creating it empty are observationally the same). -/
structure SpecDecodeBookkeeping where
  seq_with_bonus_token_in_last_step : Finset Int
  request_id_seq_id_mapping : String → Finset Int

/-- Embedding of SpecDecodeWorker._track_finished_requests: for each
finished request id, discard every sequence id mapped to it from the
bonus-token set, then delete its map entry. -/
def _track_finished_requests (st : SpecDecodeBookkeeping)
    (finished_requests_ids : List String) : SpecDecodeBookkeeping :=
  finished_requests_ids.foldl (fun s r =>
    { seq_with_bonus_token_in_last_step :=
        s.seq_with_bonus_token_in_last_step \ s.request_id_seq_id_mapping r,
      request_id_seq_id_mapping := Function.update s.request_id_seq_id_mapping r ∅ }) st

/-- One iteration of the sequence-id loop in
_track_sequences_with_bonus_tokens: membership becomes
(last accepted token of the row is not -1). -/
def bonusFoldStep (acc : Finset Int) (p : Int × Int) : Finset Int :=
  if p.2 = -1 then acc.erase p.1 else insert p.1 acc

/-- Embedding of SpecDecodeWorker._track_sequences_with_bonus_tokens:
first, for every (seq_index, seq_id), look up the last row of
accepted_token_ids_by_step at seq_index and add or discard the id
accordingly; second, merge request_ids_seq_ids_mapping into the
request-id to sequence-ids map. -/
def _track_sequences_with_bonus_tokens (st : SpecDecodeBookkeeping)
    (seq_ids : List Int)
    (request_ids_seq_ids_mapping : List (String × Finset Int))
    (accepted_token_ids_by_step : List (List Int)) : SpecDecodeBookkeeping :=
  let lastStep := accepted_token_ids_by_step.getLastD []
  { seq_with_bonus_token_in_last_step :=
      (seq_ids.zip lastStep).foldl bonusFoldStep st.seq_with_bonus_token_in_last_step,
    request_id_seq_id_mapping :=
      request_ids_seq_ids_mapping.foldl
        (fun m p => Function.update m p.1 (m p.1 ∪ p.2))
        st.request_id_seq_id_mapping }

lemma bonusFold_not_touched (l : List (Int × Int)) (init : Finset Int) (s : Int)
    (h : s ∉ l.map Prod.fst) :
    s ∈ l.foldl bonusFoldStep init ↔ s ∈ init := by
  induction l generalizing init with
  | nil => simp
  | cons a rest ih =>
    simp only [List.map_cons, List.mem_cons, not_or] at h
    rw [List.foldl_cons, ih _ h.2]
    unfold bonusFoldStep
    split
    · simp [Finset.mem_erase, Ne.symm, h.1]
    · simp [Finset.mem_insert, h.1]

lemma bonusFold_mem (l : List (Int × Int)) (init : Finset Int) (s tok : Int)
    (hnd : (l.map Prod.fst).Nodup) (hmem : (s, tok) ∈ l) :
    s ∈ l.foldl bonusFoldStep init ↔ tok ≠ -1 := by
  induction l generalizing init with
  | nil => simp at hmem
  | cons a rest ih =>
    simp only [List.map_cons, List.nodup_cons] at hnd
    rcases List.mem_cons.mp hmem with heq | htail
    · subst heq
      have hnot : s ∉ rest.map Prod.fst := hnd.1
      rw [List.foldl_cons, bonusFold_not_touched _ _ _ hnot]
      unfold bonusFoldStep
      split
      · simp_all
      · simp_all
    · exact List.foldl_cons _ _ ▸ ih _ hnd.2 htail

lemma track_finished_cons (st : SpecDecodeBookkeeping) (r : String)
    (l : List String) :
    _track_finished_requests st (r :: l) =
      _track_finished_requests
        { seq_with_bonus_token_in_last_step :=
            st.seq_with_bonus_token_in_last_step \ st.request_id_seq_id_mapping r,
          request_id_seq_id_mapping := Function.update st.request_id_seq_id_mapping r ∅ }
        l := rfl

lemma track_finished_preserves_not_mem (l : List String)
    (st : SpecDecodeBookkeeping) (s : Int)
    (h : s ∉ st.seq_with_bonus_token_in_last_step) :
    s ∉ (_track_finished_requests st l).seq_with_bonus_token_in_last_step := by
  induction l generalizing st with
  | nil => simpa [_track_finished_requests] using h
  | cons r rest ih =>
    rw [track_finished_cons]
    exact ih _ (fun hc => h (Finset.mem_sdiff.mp hc).1)

lemma track_finished_removes (l : List String) (st : SpecDecodeBookkeeping)
    (r : String) (s : Int) (hr : r ∈ l)
    (hs : s ∈ st.request_id_seq_id_mapping r) :
    s ∉ (_track_finished_requests st l).seq_with_bonus_token_in_last_step := by
  induction l generalizing st with
  | nil => simp at hr
  | cons r0 rest ih =>
    rw [track_finished_cons]
    by_cases hr0 : r = r0
    · subst hr0
      apply track_finished_preserves_not_mem
      intro hc
      exact (Finset.mem_sdiff.mp hc).2 hs
    · have hrt : r ∈ rest := by
        rcases List.mem_cons.mp hr with h | h
        · exact absurd h hr0
        · exact h
      apply ih _ hrt
      simpa [Function.update_noteq hr0] using hs

lemma track_finished_mapping_empty_preserved (l : List String)
    (st : SpecDecodeBookkeeping) (r : String)
    (h : st.request_id_seq_id_mapping r = ∅) :
    (_track_finished_requests st l).request_id_seq_id_mapping r = ∅ := by
  induction l generalizing st with
  | nil => simpa [_track_finished_requests] using h
  | cons r0 rest ih =>
    rw [track_finished_cons]
    apply ih
    by_cases hr : r = r0
    · subst hr; simp
    · simpa [Function.update_noteq hr] using h

lemma track_finished_mapping_of_mem (l : List String)
    (st : SpecDecodeBookkeeping) (r : String) (hr : r ∈ l) :
    (_track_finished_requests st l).request_id_seq_id_mapping r = ∅ := by
  induction l generalizing st with
  | nil => simp at hr
  | cons r0 rest ih =>
    rw [track_finished_cons]
    by_cases hr0 : r = r0
    · subst hr0
      apply track_finished_mapping_empty_preserved
      simp
    · have hrt : r ∈ rest := by
        rcases List.mem_cons.mp hr with h | h
        · exact absurd h hr0
        · exact h
      exact ih _ hrt

lemma track_finished_noop (l : List String) (st : SpecDecodeBookkeeping)
    (h : ∀ r ∈ l, st.request_id_seq_id_mapping r = ∅) :
    _track_finished_requests st l = st := by
  induction l generalizing st with
  | nil => rfl
  | cons r rest ih =>
    rw [track_finished_cons]
    have h1 : st.seq_with_bonus_token_in_last_step \ st.request_id_seq_id_mapping r =
        st.seq_with_bonus_token_in_last_step := by
      rw [h r (List.mem_cons_self r rest), Finset.sdiff_empty]
    have h2 : Function.update st.request_id_seq_id_mapping r ∅ =
        st.request_id_seq_id_mapping := by
      rw [← h r (List.mem_cons_self r rest)]
      exact Function.update_eq_self _ _
    rw [h1, h2]
    exact ih st (fun r' hr' => h r' (List.mem_cons_of_mem r hr'))

/-- C9: _track_finished_requests is idempotent against unknown ids: if no
finished request id has an entry in the request-to-sequence-ids map, the
call leaves the whole bookkeeping state unchanged (and in particular does
not fail); and running the cleanup a second time with the same
finished_requests_ids leaves both bookkeeping structures exactly as after
the first run. -/
theorem track_finished_requests_idempotent :
    (∀ (st : SpecDecodeBookkeeping) (fin' : List String),
      (∀ r ∈ fin', st.request_id_seq_id_mapping r = ∅) →
      _track_finished_requests st fin' = st) ∧
    (∀ (st : SpecDecodeBookkeeping) (fin' : List String),
      _track_finished_requests (_track_finished_requests st fin') fin' =
        _track_finished_requests st fin') := by
  constructor
  · exact fun st fin' h => track_finished_noop fin' st h
  · intro st fin'
    exact track_finished_noop fin' _
      (fun r hr => track_finished_mapping_of_mem fin' st r hr)

/-- Witness for C9 at a concrete state: a finished request id with no map
entry leaves the bookkeeping untouched. -/
theorem track_finished_requests_idempotent_witness :
    _track_finished_requests
      { seq_with_bonus_token_in_last_step := {5},
        request_id_seq_id_mapping := fun _ => ∅ } ["req0"] =
      { seq_with_bonus_token_in_last_step := {5},
        request_id_seq_id_mapping := fun _ => ∅ } :=
  track_finished_requests_idempotent.1 _ _ (fun _ _ => rfl)

/-- C4: membership in the bonus-token set after the output assembler, and
removal at step start.  For a batch with pairwise distinct sequence ids
whose last accepted-token row matches the batch length, a sequence id is
in the set after _track_sequences_with_bonus_tokens exactly when the last
element (position k) of its accepted-token row is not -1; and at step
start, every sequence id mapped to any finished request id is removed by
_track_finished_requests, so ids of finished requests never remain. -/
theorem bonus_token_set_invariant (st : SpecDecodeBookkeeping)
    (seq_ids : List Int) (mapping : List (String × Finset Int))
    (accepted_token_ids_by_step : List (List Int))
    (hnd : seq_ids.Nodup)
    (hlen : (accepted_token_ids_by_step.getLastD []).length = seq_ids.length) :
    (∀ i (hi : i < seq_ids.length),
      (seq_ids.get ⟨i, hi⟩ ∈
        (_track_sequences_with_bonus_tokens st seq_ids mapping
          accepted_token_ids_by_step).seq_with_bonus_token_in_last_step ↔
        (accepted_token_ids_by_step.getLastD []).getD i 0 ≠ -1)) ∧
    (∀ (st' : SpecDecodeBookkeeping) (fin' : List String) (r : String) (s : Int),
      r ∈ fin' → s ∈ st'.request_id_seq_id_mapping r →
      s ∉ (_track_finished_requests st' fin').seq_with_bonus_token_in_last_step) := by
  constructor
  · intro i hi
    set L := accepted_token_ids_by_step.getLastD [] with hL
    have hiL : i < L.length := hlen ▸ hi
    have hgetD : L.getD i 0 = L.get ⟨i, hiL⟩ := by
      rw [List.getD_eq_getElem L 0 hiL]; rfl
    rw [hgetD]
    apply bonusFold_mem
    · have : (seq_ids.zip L).map Prod.fst = seq_ids :=
        List.map_fst_zip seq_ids L (le_of_eq hlen.symm)
      rw [this]; exact hnd
    · have hizip : i < (seq_ids.zip L).length := by
        rw [List.length_zip, hlen]; exact Nat.lt_min.mpr ⟨hi, hi⟩
      have hz : (seq_ids.zip L).get ⟨i, hizip⟩ =
          (seq_ids.get ⟨i, hi⟩, L.get ⟨i, hiL⟩) := by
        simp [List.get_eq_getElem, List.getElem_zip]
      rw [← hz]
      exact List.get_mem _ _ _
  · exact fun st' fin' r s hr hs => track_finished_removes fin' st' r s hr hs

/-- Witness for C4 at a concrete batch: with last accepted row [3, -1],
sequence id 7 (row ends in 3) is in the set afterwards. -/
theorem bonus_token_set_invariant_witness :
    (7 : Int) ∈
      (_track_sequences_with_bonus_tokens
        { seq_with_bonus_token_in_last_step := ∅,
          request_id_seq_id_mapping := fun _ => ∅ }
        [7, 8] [] [[1, 2], [3, -1]]).seq_with_bonus_token_in_last_step :=
  ((bonus_token_set_invariant _ [7, 8] [] [[1, 2], [3, -1]]
      (by decide) (by decide)).1 0 (by decide)).mpr (by decide)

/-- C6: _run_non_driver_rank returns false exactly on the empty broadcast
dict (making start_worker_execution_loop exit immediately), issuing no
model call in that case; and on every non-empty broadcast it returns true
after issuing exactly the calls the claim lists, in that order. -/
theorem run_non_driver_rank_protocol :
    (∀ d : Option BroadcastDict,
      ((_run_non_driver_rank d).1 = false ↔ d = none)) ∧
    (_run_non_driver_rank none).2 = [] ∧
    (∀ b : BroadcastDict,
      (_run_non_driver_rank (some b)).2 = claimedNonDriverCalls b) ∧
    (∀ ds : List (Option BroadcastDict),
      start_worker_execution_loop (none :: ds) = []) := by
  refine ⟨?_, rfl, ?_, ?_⟩
  · intro d
    cases d <;> simp [_run_non_driver_rank]
  · intro b
    rcases b with ⟨k, ns, das, rs⟩
    cases ns <;> cases das <;> cases rs <;>
      simp [_run_non_driver_rank, claimedNonDriverCalls]
  · intro ds
    simp [start_worker_execution_loop, _run_non_driver_rank]

/-- C10: a falsy disable_by_batch_size (None or 0) makes the stored
threshold infinite, so _should_disable_all_speculation answers false for
every running queue size; in particular a configured threshold of 0 never
disables speculation. -/
theorem falsy_disable_by_batch_size_never_disables
    (x : Option Nat) (h : x = none ∨ x = some 0) (running_queue_size : Nat) :
    _should_disable_all_speculation (disable_by_batch_size_field x)
      running_queue_size = false := by
  have hfield : disable_by_batch_size_field x = ⊤ := by
    rcases h with h | h <;> subst h <;> rfl
  rw [hfield]
  simp [_should_disable_all_speculation, top_le_iff]

/-- Witness for C10: a configured threshold of 0 does not disable
speculation even for a huge running queue. -/
theorem falsy_disable_by_batch_size_never_disables_witness :
    _should_disable_all_speculation (disable_by_batch_size_field (some 0))
      1000000 = false :=
  falsy_disable_by_batch_size_never_disables (some 0) (Or.inr rfl) 1000000

/-- Sampling parameters carried by a sequence group (only the fields the
coordinator reads). -/
structure SamplingParams where
  prompt_logprobs : Option Nat
  seed : Option Nat
deriving DecidableEq, Repr, Inhabited

/-- Per-sequence metadata record of a step input (spec section 3), with
the fields the coordinator reads.  Each group is modelled with a single
sequence (seq_id plus its data), which is how the coordinator consumes
them. -/
structure SequenceGroupMetadata where
  request_id : String
  seq_id : Int
  is_prompt : Bool
  do_sample : Bool
  num_speculative_tokens : Nat
  token_chunk_size : Nat
  num_computed_tokens : Nat
  prompt_token_ids : List Int
  sampling_params : SamplingParams
deriving DecidableEq, Repr, Inhabited

/-- Modelled from the spec: split_batch_by_proposal_len lives in
vllm/spec_decode/util.py, which is not part of the given source file.
Per spec section 4.D it returns the ordered list of batch indices whose
proposal length is nonzero.  This is the speculative lane. -/
def spec_indices_of (proposal_lens : List Nat) : List Nat :=
  (List.range proposal_lens.length).filter (fun i => proposal_lens.getD i 0 ≠ 0)

/-- Modelled from the spec: the non-speculative lane of
split_batch_by_proposal_len, the ordered list of batch indices whose
proposal length is zero (spec section 4.D). -/
def non_spec_indices_of (proposal_lens : List Nat) : List Nat :=
  (List.range proposal_lens.length).filter (fun i => proposal_lens.getD i 0 = 0)

/-- The no_spec flag computed by execute_model on the driver:
num_lookahead_slots is 0, or all speculation is disabled, or every
sequence in the batch has num_speculative_tokens == 0. -/
def no_spec_of (seqs : List SequenceGroupMetadata) (num_lookahead_slots : Nat)
    (disable_all_speculation : Bool) : Bool :=
  (num_lookahead_slots == 0) || disable_all_speculation ||
    seqs.all (fun s => s.num_speculative_tokens == 0)

/-- The control dict the driver broadcasts for a step (execute_model):
run_spec_proposer_for_prefill is atleast_one_prompt. -/
def broadcast_dict_of (seqs : List SequenceGroupMetadata)
    (num_lookahead_slots : Nat) (disable_all_speculation : Bool) :
    BroadcastDict :=
  { num_lookahead_slots := num_lookahead_slots,
    no_spec := no_spec_of seqs num_lookahead_slots disable_all_speculation,
    disable_all_speculation := disable_all_speculation,
    run_spec_proposer_for_prefill := seqs.any (fun s => s.is_prompt) }

/-- Modelled from the spec: the proposer's get_spec_proposals (the draft
worker implementations live outside the given source file) issues one
draft-model execution per lookahead slot, and one even at k = 0 so the
draft KV cache catches up (spec sections 4.H and 5: peers mirror it with
max(num_lookahead_slots, 1) runs). -/
def get_spec_proposals_calls (num_lookahead_slots : Nat) : List Event :=
  List.replicate (max num_lookahead_slots 1) Event.proposer

/-- The condition under which _run_speculative_decoding_step issues the
extra proposer execution that syncs the draft KV cache for prefills: the
non-speculative lane restricted to prompt records is non-empty. -/
def prefill_sync_needed (seqs : List SequenceGroupMetadata)
    (proposal_lens : List Nat) : Bool :=
  ((non_spec_indices_of proposal_lens).filter
    (fun i => (seqs.getD i default).is_prompt)).length != 0

/-- Model executions issued by _run_no_spec on the driver: the scorer
once, then (unless skip_proposer) the proposer num_spec_prefill_steps
times. -/
def _run_no_spec_calls (skip_proposer : Bool) (num_spec_prefill_steps : Nat) :
    List Event :=
  [Event.scorer] ++
    (if skip_proposer then []
     else List.replicate num_spec_prefill_steps Event.proposer)

/-- Model executions issued by _run_speculative_decoding_step on the
driver: the proposer runs of get_spec_proposals, one scorer run
(score_proposals), then the prefill KV-sync proposer run when the batch
has prompt rows in the non-speculative lane. -/
def _run_speculative_decoding_step_calls (seqs : List SequenceGroupMetadata)
    (proposal_lens : List Nat) (num_lookahead_slots : Nat) : List Event :=
  get_spec_proposals_calls num_lookahead_slots ++ [Event.scorer] ++
    (if prefill_sync_needed seqs proposal_lens then [Event.proposer] else [])

/-- Embedding of execute_model on the driver rank, as the ordered list of
events it emits (the control broadcast plus model executions) paired with
a success flag: the flag is false exactly when the all-prompt assertion
fires, in which case the step aborts before emitting anything.
proposal_lens is the vector of proposal lengths the proposer returns for
this batch (consumed only on the speculative path). -/
def execute_model_driver (seqs : List SequenceGroupMetadata)
    (proposal_lens : List Nat) (num_lookahead_slots : Nat)
    (disable_all_speculation : Bool) (num_spec_prefill_steps : Nat) :
    List Event × Bool :=
  if seqs.all (fun s => s.is_prompt) && !seqs.isEmpty &&
      (num_lookahead_slots != 0) then
    ([], false)
  else
    let no_spec := no_spec_of seqs num_lookahead_slots disable_all_speculation
    (Event.broadcast ::
      (if no_spec then
        _run_no_spec_calls disable_all_speculation num_spec_prefill_steps
      else
        _run_speculative_decoding_step_calls seqs proposal_lens
          num_lookahead_slots),
     true)

lemma filter_isCall_replicate_proposer (n : Nat) :
    (List.replicate n Event.proposer).filter Event.isCall =
      List.replicate n Event.proposer :=
  List.filter_eq_self.mpr (fun a ha => by rw [List.eq_of_mem_replicate ha]; rfl)

lemma prefill_sync_eq_any_prompt (seqs : List SequenceGroupMetadata)
    (plens : List Nat) (hlen : plens.length = seqs.length)
    (hprompt : ∀ i (hi : i < seqs.length),
      (seqs.get ⟨i, hi⟩).is_prompt = true → plens.getD i 0 = 0) :
    prefill_sync_needed seqs plens = seqs.any (fun s => s.is_prompt) := by
  unfold prefill_sync_needed
  cases hany : seqs.any (fun s => s.is_prompt) with
  | true =>
    rw [List.any_eq_true] at hany
    obtain ⟨s, hs, hp⟩ := hany
    obtain ⟨⟨i, hi⟩, rfl⟩ := List.mem_iff_get.mp hs
    have hiplen : i < plens.length := by omega
    have hgd : seqs.getD i default = seqs.get ⟨i, hi⟩ := by
      rw [List.getD_eq_getElem seqs default hi]; rfl
    have hmem : i ∈ (non_spec_indices_of plens).filter
        (fun j => (seqs.getD j default).is_prompt) := by
      rw [List.mem_filter]
      refine ⟨?_, ?_⟩
      · rw [non_spec_indices_of, List.mem_filter]
        refine ⟨List.mem_range.mpr hiplen, ?_⟩
        simp only [decide_eq_true_eq]
        exact hprompt i hi hp
      · rw [hgd]; exact hp
    have hne : ((non_spec_indices_of plens).filter
        (fun j => (seqs.getD j default).is_prompt)).length ≠ 0 := by
      intro h0
      rw [List.length_eq_zero] at h0
      rw [h0] at hmem
      exact absurd hmem (List.not_mem_nil i)
    simpa [bne_iff_ne] using hne
  | false =>
    rw [List.any_eq_false] at hany
    have hnil : (non_spec_indices_of plens).filter
        (fun j => (seqs.getD j default).is_prompt) = [] := by
      rw [List.filter_eq_nil_iff]
      intro i hi
      rw [non_spec_indices_of, List.mem_filter, List.mem_range] at hi
      have hislt : i < seqs.length := by omega
      have hgd : seqs.getD i default = seqs.get ⟨i, hislt⟩ := by
        rw [List.getD_eq_getElem seqs default hislt]; rfl
      rw [hgd]
      exact hany _ (List.get_mem seqs i hislt)
    rw [hnil]
    rfl

/-- C1 (amended): within a step, the model executions issued by the
driver rank (through _run_no_spec or _run_speculative_decoding_step)
match, in number and order, those issued by a non-driver rank processing
the driver's broadcast, provided (a) every prompt record has proposal
length 0 and (b) whenever the no-spec path runs with the proposer enabled
(no_spec and not disable_all_speculation), num_spec_prefill_steps equals
max(num_lookahead_slots, 1).  Without restriction (b) the original claim
fails, see the counterexample. -/
theorem driver_matches_non_driver_calls (seqs : List SequenceGroupMetadata)
    (plens : List Nat) (k : Nat) (disable_all_speculation : Bool)
    (num_spec_prefill_steps : Nat)
    (hlen : plens.length = seqs.length)
    (hprompt : ∀ i (hi : i < seqs.length),
      (seqs.get ⟨i, hi⟩).is_prompt = true → plens.getD i 0 = 0)
    (hnsps : no_spec_of seqs k disable_all_speculation = true →
      disable_all_speculation = false → num_spec_prefill_steps = max k 1)
    (hok : (execute_model_driver seqs plens k disable_all_speculation
      num_spec_prefill_steps).2 = true) :
    (execute_model_driver seqs plens k disable_all_speculation
        num_spec_prefill_steps).1.filter Event.isCall =
      (_run_non_driver_rank
        (some (broadcast_dict_of seqs k disable_all_speculation))).2 := by
  unfold execute_model_driver at hok ⊢
  split at hok
  case isTrue h => simp at hok
  case isFalse h =>
    clear hok
    split
    case isTrue h' => exact absurd h' h
    case isFalse h' =>
      clear h'
      cases hdis : disable_all_speculation with
      | true =>
        have hns : no_spec_of seqs k true = true := by
          simp [no_spec_of]
        simp [_run_non_driver_rank, broadcast_dict_of, hns,
          _run_no_spec_calls, Event.isCall, List.filter]
      | false =>
        rw [hdis] at hnsps
        cases hns : no_spec_of seqs k false with
        | true =>
          have hn := hnsps hns rfl
          subst hn
          simp [_run_non_driver_rank, broadcast_dict_of, hns,
            _run_no_spec_calls, Event.isCall, List.filter,
            filter_isCall_replicate_proposer]
        | false =>
          have hsync := prefill_sync_eq_any_prompt seqs plens hlen hprompt
          cases hany : seqs.any (fun s => s.is_prompt) with
          | true =>
            rw [hany] at hsync
            simp [_run_non_driver_rank, broadcast_dict_of, hns, hany,
              _run_speculative_decoding_step_calls, get_spec_proposals_calls,
              Event.isCall, List.filter, filter_isCall_replicate_proposer,
              List.filter_append, hsync]
          | false =>
            rw [hany] at hsync
            simp [_run_non_driver_rank, broadcast_dict_of, hns, hany,
              _run_speculative_decoding_step_calls, get_spec_proposals_calls,
              Event.isCall, List.filter, filter_isCall_replicate_proposer,
              List.filter_append, hsync]

/-- A concrete all-prompt batch record used by the concrete instances
below. -/
def promptOnlyRecord : SequenceGroupMetadata :=
  { request_id := "r0", seq_id := 0, is_prompt := true, do_sample := true,
    num_speculative_tokens := 0, token_chunk_size := 5,
    num_computed_tokens := 0, prompt_token_ids := [1, 2, 3, 4, 5],
    sampling_params := { prompt_logprobs := none, seed := none } }

/-- Counterexample to C1 as stated: with num_spec_prefill_steps = 2 (as
configured for a deepseek_mtp draft), num_lookahead_slots = 0 and
speculation not disabled, the driver issues scorer, proposer, proposer
while a non-driver rank processing the same broadcast issues scorer,
proposer: the call sequences differ. -/
theorem driver_matches_non_driver_calls_counterexample :
    (execute_model_driver [promptOnlyRecord] [0] 0 false 2).1.filter
        Event.isCall = [Event.scorer, Event.proposer, Event.proposer] ∧
    (_run_non_driver_rank
        (some (broadcast_dict_of [promptOnlyRecord] 0 false))).2 =
      [Event.scorer, Event.proposer] ∧
    ([Event.scorer, Event.proposer, Event.proposer] : List Event) ≠
      [Event.scorer, Event.proposer] := by
  exact ⟨rfl, rfl, by decide⟩

/-- Witness for the amended C1 at a concrete prefill step with
num_spec_prefill_steps = 1. -/
theorem driver_matches_non_driver_calls_witness :
    (execute_model_driver [promptOnlyRecord] [0] 0 false 1).1.filter
        Event.isCall =
      (_run_non_driver_rank
        (some (broadcast_dict_of [promptOnlyRecord] 0 false))).2 :=
  driver_matches_non_driver_calls [promptOnlyRecord] [0] 0 false 1 rfl
    (fun i hi _ => by
      have : i = 0 := Nat.lt_one_iff.mp hi
      subst this; rfl)
    (fun _ _ => rfl) rfl

lemma driver_assert_cond (seqs : List SequenceGroupMetadata) (k : Nat) :
    (seqs.all (fun s => s.is_prompt) && !seqs.isEmpty && (k != 0)) = true ↔
      (seqs.all (fun s => s.is_prompt) = true ∧ seqs ≠ [] ∧ k ≠ 0) := by
  simp [Bool.and_eq_true, List.isEmpty_iff, and_assoc]

/-- C7: on the driver, execute_model aborts (before broadcasting control
or invoking any model) exactly when the batch is non-empty, every record
is a prompt, and num_lookahead_slots is nonzero; when that precondition
is respected the check never fires. -/
theorem all_prompt_requires_zero_lookahead (seqs : List SequenceGroupMetadata)
    (plens : List Nat) (k : Nat) (disable_all_speculation : Bool)
    (num_spec_prefill_steps : Nat) :
    ((execute_model_driver seqs plens k disable_all_speculation
        num_spec_prefill_steps).2 = false ↔
      (seqs.all (fun s => s.is_prompt) = true ∧ seqs ≠ [] ∧ k ≠ 0)) ∧
    ((execute_model_driver seqs plens k disable_all_speculation
        num_spec_prefill_steps).2 = false →
      (execute_model_driver seqs plens k disable_all_speculation
        num_spec_prefill_steps).1 = []) := by
  have hc := driver_assert_cond seqs k
  unfold execute_model_driver
  split
  case isTrue h => exact ⟨⟨fun _ => hc.mp h, fun _ => rfl⟩, fun _ => rfl⟩
  case isFalse h =>
    refine ⟨⟨fun hfalse => absurd hfalse (by simp),
      fun hcond => absurd (hc.mpr hcond) h⟩,
      fun hfalse => absurd hfalse (by simp)⟩

/-- Witness for C7: a non-empty all-prompt batch with one lookahead slot
makes the driver abort with no event emitted. -/
theorem all_prompt_requires_zero_lookahead_witness :
    (execute_model_driver [promptOnlyRecord] [0] 1 false 1).2 = false ∧
    (execute_model_driver [promptOnlyRecord] [0] 1 false 1).1 = [] := by
  have h := all_prompt_requires_zero_lookahead [promptOnlyRecord] [0] 1 false 1
  have hcond : ([promptOnlyRecord].all (fun s => s.is_prompt) = true ∧
      [promptOnlyRecord] ≠ [] ∧ (1 : Nat) ≠ 0) := by
    refine ⟨rfl, ?_, ?_⟩ <;> decide
  exact ⟨h.1.mpr hcond, h.2 (h.1.mpr hcond)⟩

/-- The non-speculative rows built inside _verify_tokens: gather
proposal_scores.token_ids at the non-speculative indices, then widen each
row to max_proposal_len + 1 columns keeping column 0 and writing -1 into
columns 1 and up (the source expands, clones, and assigns -1 to the
slice starting at column 1). -/
def non_spec_expanded_rows (proposal_lens : List Nat)
    (scorer_token_ids : List (List Int)) (max_proposal_len : Nat) :
    List (List Int) :=
  (non_spec_indices_of proposal_lens).map
    (fun i => (scorer_token_ids.getD i []).take 1 ++
      List.replicate max_proposal_len (-1))

/-- The row stack of _verify_tokens before reordering: the acceptance
sampler's rows for the speculative lane followed by the expanded
non-speculative rows. -/
def verify_concat_rows (proposal_lens : List Nat)
    (scorer_token_ids : List (List Int))
    (accepted_token_ids_spec : List (List Int)) (max_proposal_len : Nat) :
    List (List Int) :=
  accepted_token_ids_spec ++
    non_spec_expanded_rows proposal_lens scorer_token_ids max_proposal_len

/-- The tensor index assignment rows[original_indices] := rows.clone()
of the source, modelled as sequential writes result[original_indices[j]]
:= rows[j]; positions not named by original_indices keep the
pre-assignment row. -/
def scatter_rows (original_indices : List Nat) (rows : List (List Int)) :
    List (List Int) :=
  (original_indices.zip rows).foldl (fun acc p => acc.set p.1 p.2) rows

/-- Embedding of the accepted_token_ids computation of
SpecDecodeWorker._verify_tokens: split the batch by proposal length,
run the acceptance sampler on the speculative lane (its output rows are
the accepted_token_ids_spec input here), expand the non-speculative
scorer rows, stack them after the sampler rows, and scatter the stack
back into the original batch order via spec_indices ++ non_spec_indices. -/
def _verify_tokens (proposal_lens : List Nat)
    (scorer_token_ids : List (List Int))
    (accepted_token_ids_spec : List (List Int)) (max_proposal_len : Nat) :
    List (List Int) :=
  scatter_rows
    (spec_indices_of proposal_lens ++ non_spec_indices_of proposal_lens)
    (verify_concat_rows proposal_lens scorer_token_ids
      accepted_token_ids_spec max_proposal_len)

lemma getD_set_ne (l : List (List Int)) (j : Nat) (v : List Int) (i : Nat)
    (h : i ≠ j) : (l.set j v).getD i [] = l.getD i [] := by
  by_cases hi : i < l.length
  · have hi' : i < (l.set j v).length := by rw [List.length_set]; exact hi
    rw [List.getD_eq_getElem _ _ hi', List.getD_eq_getElem _ _ hi]
    exact List.getElem_set_ne (Ne.symm h) hi'
  · push_neg at hi
    rw [List.getD_eq_default _ _ hi,
      List.getD_eq_default _ _ (by rw [List.length_set]; exact hi)]

lemma getD_set_self (l : List (List Int)) (j : Nat) (v : List Int)
    (h : j < l.length) : (l.set j v).getD j [] = v := by
  have h' : j < (l.set j v).length := by rw [List.length_set]; exact h
  rw [List.getD_eq_getElem _ _ h']
  exact List.getElem_set_self h'

lemma scatter_foldl_length (pairs : List (Nat × List Int))
    (init : List (List Int)) :
    (pairs.foldl (fun acc p => acc.set p.1 p.2) init).length = init.length := by
  induction pairs generalizing init with
  | nil => rfl
  | cons a rest ih =>
    rw [List.foldl_cons, ih, List.length_set]

lemma scatter_foldl_not_touched (pairs : List (Nat × List Int))
    (init : List (List Int)) (i : Nat) (h : i ∉ pairs.map Prod.fst) :
    (pairs.foldl (fun acc p => acc.set p.1 p.2) init).getD i [] =
      init.getD i [] := by
  induction pairs generalizing init with
  | nil => rfl
  | cons a rest ih =>
    simp only [List.map_cons, List.mem_cons, not_or] at h
    rw [List.foldl_cons, ih _ h.2, getD_set_ne _ _ _ _ h.1]

lemma scatter_foldl_mem (pairs : List (Nat × List Int))
    (init : List (List Int)) (i : Nat) (row : List Int)
    (hnd : (pairs.map Prod.fst).Nodup) (hmem : (i, row) ∈ pairs)
    (hi : i < init.length) :
    (pairs.foldl (fun acc p => acc.set p.1 p.2) init).getD i [] = row := by
  induction pairs generalizing init with
  | nil => simp at hmem
  | cons a rest ih =>
    simp only [List.map_cons, List.nodup_cons] at hnd
    rcases List.mem_cons.mp hmem with heq | htail
    · have hpair : a = (i, row) := heq.symm
      subst hpair
      rw [List.foldl_cons, scatter_foldl_not_touched _ _ _ hnd.1]
      exact getD_set_self _ _ _ hi
    · rw [List.foldl_cons]
      exact ih _ hnd.2 htail (by rw [List.length_set]; exact hi)

lemma spec_indices_nodup (plens : List Nat) : (spec_indices_of plens).Nodup :=
  List.Nodup.filter _ (List.nodup_range _)

lemma non_spec_indices_nodup (plens : List Nat) :
    (non_spec_indices_of plens).Nodup :=
  List.Nodup.filter _ (List.nodup_range _)

lemma spec_non_spec_disjoint (plens : List Nat) :
    (spec_indices_of plens).Disjoint (non_spec_indices_of plens) := by
  intro i hs hn
  rw [spec_indices_of, List.mem_filter] at hs
  rw [non_spec_indices_of, List.mem_filter] at hn
  have h1 := of_decide_eq_true hs.2
  have h2 := of_decide_eq_true hn.2
  exact h1 h2

lemma original_indices_nodup (plens : List Nat) :
    ((spec_indices_of plens) ++ (non_spec_indices_of plens)).Nodup :=
  List.Nodup.append (spec_indices_nodup plens) (non_spec_indices_nodup plens)
    (spec_non_spec_disjoint plens)

lemma spec_add_non_spec_length (plens : List Nat) :
    (spec_indices_of plens).length + (non_spec_indices_of plens).length =
      plens.length := by
  have hcongr : non_spec_indices_of plens =
      (List.range plens.length).filter
        (fun i => !(decide (plens.getD i 0 ≠ 0))) := by
    unfold non_spec_indices_of
    apply List.filter_congr
    intro i _
    simp [decide_not]
  have hperm := List.filter_append_perm
    (fun i => decide (plens.getD i 0 ≠ 0)) (List.range plens.length)
  have hlen := hperm.length_eq
  rw [List.length_append] at hlen
  rw [spec_indices_of, hcongr]
  simpa using hlen

lemma mem_spec_indices (plens : List Nat) (i : Nat) (hi : i < plens.length)
    (hne : plens.getD i 0 ≠ 0) : i ∈ spec_indices_of plens := by
  rw [spec_indices_of, List.mem_filter]
  exact ⟨List.mem_range.mpr hi, decide_eq_true hne⟩

lemma mem_non_spec_indices (plens : List Nat) (i : Nat) (hi : i < plens.length)
    (heq : plens.getD i 0 = 0) : i ∈ non_spec_indices_of plens := by
  rw [non_spec_indices_of, List.mem_filter]
  exact ⟨List.mem_range.mpr hi, decide_eq_true heq⟩

lemma zip_self_map (l : List Nat) (g : Nat → List Int) :
    l.zip (l.map g) = l.map (fun a => (a, g a)) := by
  induction l with
  | nil => rfl
  | cons a t ih => simp [ih]

lemma verify_tokens_characterization (plens : List Nat)
    (scorer_token_ids accepted_token_ids_spec : List (List Int)) (k : Nat)
    (haccepted : accepted_token_ids_spec.length =
      (spec_indices_of plens).length) :
    (_verify_tokens plens scorer_token_ids accepted_token_ids_spec k).length =
      plens.length ∧
    ∀ i (hi : i < plens.length),
      (_verify_tokens plens scorer_token_ids accepted_token_ids_spec
          k).getD i [] =
        if plens.getD i 0 ≠ 0 then
          accepted_token_ids_spec.getD ((spec_indices_of plens).indexOf i) []
        else
          (scorer_token_ids.getD i []).take 1 ++ List.replicate k (-1) := by
  have hexplen : (non_spec_expanded_rows plens scorer_token_ids k).length =
      (non_spec_indices_of plens).length := List.length_map _ _
  have hconcatlen : (verify_concat_rows plens scorer_token_ids
      accepted_token_ids_spec k).length = plens.length := by
    rw [verify_concat_rows, List.length_append, haccepted, hexplen,
      spec_add_non_spec_length]
  have horiglen : ((spec_indices_of plens) ++
      (non_spec_indices_of plens)).length = plens.length := by
    rw [List.length_append, spec_add_non_spec_length]
  have hzipsplit : ((spec_indices_of plens) ++
        (non_spec_indices_of plens)).zip
      (verify_concat_rows plens scorer_token_ids accepted_token_ids_spec k) =
      (spec_indices_of plens).zip accepted_token_ids_spec ++
      (non_spec_indices_of plens).zip
        (non_spec_expanded_rows plens scorer_token_ids k) :=
    List.zip_append haccepted.symm
  have hmapfst : ((((spec_indices_of plens) ++
        (non_spec_indices_of plens)).zip
      (verify_concat_rows plens scorer_token_ids
        accepted_token_ids_spec k)).map Prod.fst) =
      (spec_indices_of plens) ++ (non_spec_indices_of plens) :=
    List.map_fst_zip _ _ (by omega)
  have hnd : ((((spec_indices_of plens) ++
        (non_spec_indices_of plens)).zip
      (verify_concat_rows plens scorer_token_ids
        accepted_token_ids_spec k)).map Prod.fst).Nodup := by
    rw [hmapfst]; exact original_indices_nodup plens
  constructor
  · rw [_verify_tokens, scatter_rows, scatter_foldl_length, hconcatlen]
  · intro i hi
    by_cases hcase : plens.getD i 0 ≠ 0
    · rw [if_pos hcase]
      have hmemspec : i ∈ spec_indices_of plens := mem_spec_indices plens i hi hcase
      have hp : (spec_indices_of plens).indexOf i <
          (spec_indices_of plens).length :=
        List.indexOf_lt_length.mpr hmemspec
      have hpa : (spec_indices_of plens).indexOf i <
          accepted_token_ids_spec.length := by omega
      have hpz : (spec_indices_of plens).indexOf i <
          ((spec_indices_of plens).zip accepted_token_ids_spec).length := by
        rw [List.length_zip]; omega
      have hz : ((spec_indices_of plens).zip accepted_token_ids_spec).get
          ⟨(spec_indices_of plens).indexOf i, hpz⟩ =
          ((spec_indices_of plens).get ⟨_, hp⟩,
           accepted_token_ids_spec.get ⟨_, hpa⟩) := by
        simp [List.get_eq_getElem, List.getElem_zip]
      have hgi : (spec_indices_of plens).get
          ⟨(spec_indices_of plens).indexOf i, hp⟩ = i := by
        simpa [List.get_eq_getElem] using List.getElem_indexOf hp
      have hga : accepted_token_ids_spec.get
          ⟨(spec_indices_of plens).indexOf i, hpa⟩ =
          accepted_token_ids_spec.getD
            ((spec_indices_of plens).indexOf i) [] := by
        rw [List.getD_eq_getElem _ _ hpa]; rfl
      have hpair : ((spec_indices_of plens).zip accepted_token_ids_spec).get
          ⟨(spec_indices_of plens).indexOf i, hpz⟩ =
          (i, accepted_token_ids_spec.getD
            ((spec_indices_of plens).indexOf i) []) := by
        rw [hz, hgi, hga]
      have hmem : (i, accepted_token_ids_spec.getD
          ((spec_indices_of plens).indexOf i) []) ∈
          ((spec_indices_of plens) ++ (non_spec_indices_of plens)).zip
            (verify_concat_rows plens scorer_token_ids
              accepted_token_ids_spec k) := by
        rw [hzipsplit]
        apply List.mem_append_left
        rw [← hpair]
        exact List.get_mem _ _ _
      exact scatter_foldl_mem _ _ _ _ hnd hmem (by omega)
    · rw [if_neg hcase]
      push_neg at hcase
      have hmemns : i ∈ non_spec_indices_of plens :=
        mem_non_spec_indices plens i hi hcase
      have hzipmap : (non_spec_indices_of plens).zip
          (non_spec_expanded_rows plens scorer_token_ids k) =
          (non_spec_indices_of plens).map
            (fun a => (a, (scorer_token_ids.getD a []).take 1 ++
              List.replicate k (-1))) := by
        rw [non_spec_expanded_rows]
        exact zip_self_map _ _
      have hmem : (i, (scorer_token_ids.getD i []).take 1 ++
          List.replicate k (-1)) ∈
          ((spec_indices_of plens) ++ (non_spec_indices_of plens)).zip
            (verify_concat_rows plens scorer_token_ids
              accepted_token_ids_spec k) := by
        rw [hzipsplit]
        apply List.mem_append_right
        rw [hzipmap]
        exact List.mem_map.mpr ⟨i, hmemns, rfl⟩
      exact scatter_foldl_mem _ _ _ _ hnd hmem (by omega)

/-- C2: after _verify_tokens, rows are back in the order of the input
batch.  For every batch whose proposal lengths are each 0 or k, and for
every index i, row i of the output is the row computed for input
sequence i: the acceptance-sampler row at i's rank within the
speculative lane when proposal_lens[i] is nonzero, and the expanded
non-speculative scorer row otherwise, the stack having been permuted
back through original_indices = spec_indices ++ non_spec_indices. -/
theorem verify_tokens_row_order (plens : List Nat)
    (scorer_token_ids accepted_token_ids_spec : List (List Int)) (k : Nat)
    (hk : ∀ p ∈ plens, p = 0 ∨ p = k)
    (hscorer : scorer_token_ids.length = plens.length)
    (haccepted : accepted_token_ids_spec.length =
      (spec_indices_of plens).length) :
    (_verify_tokens plens scorer_token_ids accepted_token_ids_spec k).length =
      plens.length ∧
    ∀ i (hi : i < plens.length),
      (_verify_tokens plens scorer_token_ids accepted_token_ids_spec
          k).getD i [] =
        if plens.getD i 0 ≠ 0 then
          accepted_token_ids_spec.getD ((spec_indices_of plens).indexOf i) []
        else
          (scorer_token_ids.getD i []).take 1 ++ List.replicate k (-1) :=
  verify_tokens_characterization plens scorer_token_ids
    accepted_token_ids_spec k haccepted

/-- Witness for C2 at a concrete mixed batch: proposal lengths [2, 0],
sampler row [4, 5, 6] for the speculative sequence 0, scorer rows
[[9, 9, 9], [7, 8, 8]]; the output keeps sequence order: row 0 is the
sampler row and row 1 is [7, -1, -1]. -/
theorem verify_tokens_row_order_witness :
    (_verify_tokens [2, 0] [[9, 9, 9], [7, 8, 8]] [[4, 5, 6]] 2).getD 0 [] =
      [4, 5, 6] ∧
    (_verify_tokens [2, 0] [[9, 9, 9], [7, 8, 8]] [[4, 5, 6]] 2).getD 1 [] =
      [7, -1, -1] := by
  have h := verify_tokens_row_order [2, 0] [[9, 9, 9], [7, 8, 8]] [[4, 5, 6]] 2
    (by decide) (by decide) (by decide)
  refine ⟨?_, ?_⟩
  · have h0 := h.2 0 (by decide)
    simpa using h0
  · have h1 := h.2 1 (by decide)
    simpa using h1

lemma getD_append_right_rows (l1 l2 : List (List Int)) (m : Nat)
    (h1 : l1.length ≤ m) (h2 : m < l1.length + l2.length) :
    (l1 ++ l2).getD m [] = l2.getD (m - l1.length) [] := by
  have h' : m < (l1 ++ l2).length := by rw [List.length_append]; omega
  have h2' : m - l1.length < l2.length := by omega
  rw [List.getD_eq_getElem _ _ h', List.getD_eq_getElem _ _ h2']
  exact List.getElem_append_right h1

/-- C3: for every non-speculative sequence i (proposal length 0) whose
scorer row has width k+1, the output row of _verify_tokens at i has width
k+1, its column 0 is the scorer's sampled token id for that sequence
(position 0 of its row of proposal_scores.token_ids), and columns 1
through k are all -1; and before reordering this row sits in the stack
right after the speculative sampler rows, at offset |spec| plus i's rank
within the non-speculative lane. -/
theorem verify_tokens_non_spec_rows (plens : List Nat)
    (scorer_token_ids accepted_token_ids_spec : List (List Int)) (k : Nat)
    (hscorer : scorer_token_ids.length = plens.length)
    (haccepted : accepted_token_ids_spec.length =
      (spec_indices_of plens).length)
    (i : Nat) (hi : i < plens.length) (hzero : plens.getD i 0 = 0)
    (hrowlen : (scorer_token_ids.getD i []).length = k + 1) :
    ((_verify_tokens plens scorer_token_ids accepted_token_ids_spec
        k).getD i []).length = k + 1 ∧
    ((_verify_tokens plens scorer_token_ids accepted_token_ids_spec
        k).getD i []).getD 0 0 = (scorer_token_ids.getD i []).getD 0 0 ∧
    (∀ j, 1 ≤ j → j ≤ k →
      ((_verify_tokens plens scorer_token_ids accepted_token_ids_spec
        k).getD i []).getD j 0 = -1) ∧
    (verify_concat_rows plens scorer_token_ids accepted_token_ids_spec
        k).getD (accepted_token_ids_spec.length +
          (non_spec_indices_of plens).indexOf i) [] =
      (_verify_tokens plens scorer_token_ids accepted_token_ids_spec
        k).getD i [] := by
  have hrow := ((verify_tokens_characterization plens scorer_token_ids
    accepted_token_ids_spec k haccepted).2 i hi)
  rw [if_neg (by simpa using hzero)] at hrow
  have hne : scorer_token_ids.getD i [] ≠ [] := by
    intro hc
    rw [hc] at hrowlen
    simp at hrowlen
  obtain ⟨a, t, hat⟩ := List.exists_cons_of_ne_nil hne
  have hrow' : (_verify_tokens plens scorer_token_ids accepted_token_ids_spec
      k).getD i [] = a :: List.replicate k (-1) := by
    rw [hrow, hat]
    simp
  refine ⟨?_, ?_, ?_, ?_⟩
  · rw [hrow']
    simp
  · rw [hrow', hat]
    rfl
  · intro j h1j hjk
    obtain ⟨jj, rfl⟩ := Nat.exists_eq_add_of_le h1j
    rw [hrow']
    rw [Nat.add_comm 1 jj, List.getD_cons_succ]
    have hjjk : jj < k := by omega
    rw [List.getD_eq_getElem _ _ (by simpa using hjjk)]
    exact List.getElem_replicate _ _
  · have hmemns : i ∈ non_spec_indices_of plens :=
      mem_non_spec_indices plens i hi hzero
    have hq : (non_spec_indices_of plens).indexOf i <
        (non_spec_indices_of plens).length :=
      List.indexOf_lt_length.mpr hmemns
    have hexplen : (non_spec_expanded_rows plens scorer_token_ids k).length =
        (non_spec_indices_of plens).length := List.length_map _ _
    rw [verify_concat_rows]
    rw [getD_append_right_rows _ _ _ (by omega) (by omega)]
    rw [Nat.add_sub_cancel_left]
    have hqe : (non_spec_indices_of plens).indexOf i <
        (non_spec_expanded_rows plens scorer_token_ids k).length := by omega
    rw [List.getD_eq_getElem _ _ hqe]
    simp only [non_spec_expanded_rows, List.getElem_map,
      List.getElem_indexOf hq]
    rw [hrow]

/-- Witness for C3 at the concrete mixed batch of the C2 witness: the
non-speculative output row has width 3, starts with the scorer token 7,
and carries -1 in columns 1 and 2. -/
theorem verify_tokens_non_spec_rows_witness :
    ((_verify_tokens [2, 0] [[9, 9, 9], [7, 8, 8]] [[4, 5, 6]] 2).getD
        1 []).length = 3 ∧
    ((_verify_tokens [2, 0] [[9, 9, 9], [7, 8, 8]] [[4, 5, 6]] 2).getD
        1 []).getD 0 0 = 7 ∧
    ((_verify_tokens [2, 0] [[9, 9, 9], [7, 8, 8]] [[4, 5, 6]] 2).getD
        1 []).getD 2 0 = -1 := by
  have h := verify_tokens_non_spec_rows [2, 0] [[9, 9, 9], [7, 8, 8]]
    [[4, 5, 6]] 2 (by decide) (by decide) 1 (by decide) (by decide) (by decide)
  exact ⟨h.1, h.2.1, h.2.2.1 2 (by decide) (by decide)⟩

/-- Floating-point value as the coordinator emits it into output
records: negative infinity or a finite value (the finite values written
on the no-logprob paths are all 0.0). -/
inductive PyFloat where
  | neginf : PyFloat
  | val : Rat → PyFloat
deriving DecidableEq, Repr

/-- Modelled from the spec: the INVALID_TOKEN_ID sentinel imported from
vllm/sequence.py (outside the given source file), marking
non-predicting slots of a chunked prefill; -1 in the implementation
(spec section 3, global sentinels). -/
def VLLM_INVALID_TOKEN_ID : Int := -1

/-- Modelled from the spec: create_logprobs_output
(vllm/spec_decode/util.py, outside the given source file) packages one
emitted token: its id, the rank and logprob assigned to it, and the
top-k token-id and logprob lists (spec section 6, SamplerOutput). -/
structure LogprobsOutput where
  token_id : Int
  token_id_logprob_rank : Int
  token_id_logprob : PyFloat
  topk_token_ids : List (Option Int)
  topk_logprobs : List (Option PyFloat)
deriving DecidableEq, Repr

/-- Modelled from the spec: the sampled entry of
create_sequence_group_output (vllm/spec_decode/util.py): a
LogprobsOutput together with the sequence id it belongs to. -/
structure SeqGroupSample where
  seq_id : Int
  sample : LogprobsOutput
deriving DecidableEq, Repr

/-- One per-sequence output record of a SamplerOutput: zero or one
sampled entries plus optional prompt logprobs (spec section 6). -/
structure CompletionSequenceGroupOutput where
  samples : List SeqGroupSample
  prompt_logprobs : Option (List LogprobsOutput)
deriving DecidableEq, Repr

/-- The per-sequence flag of _serialize_sampler_output_no_logprobs: the
record is a prompt and requests a positive number of prompt logprobs. -/
def needsPromptLogprobs (seq : SequenceGroupMetadata) : Bool :=
  seq.is_prompt &&
    (match seq.sampling_params.prompt_logprobs with
     | none => false
     | some n => decide (0 < n))

/-- The prompt-logprob list built for one record of
_serialize_sampler_output_no_logprobs: the chunk's prompt tokens
(skipping the first token of the sequence, which has no logprob), each
packaged with rank -1, logprob 0.0 and empty top-k lists. -/
def serializePromptLogprobs (seq : SequenceGroupMetadata) :
    Option (List LogprobsOutput) :=
  if needsPromptLogprobs seq then
    some (((seq.prompt_token_ids.take
        (seq.num_computed_tokens + seq.token_chunk_size)).drop
        (if seq.num_computed_tokens = 0 then 1
         else seq.num_computed_tokens)).map (fun p =>
      { token_id := p, token_id_logprob_rank := -1,
        token_id_logprob := PyFloat.val 0,
        topk_token_ids := [], topk_logprobs := [] }))
  else none

/-- One iteration of the output loop of
_serialize_sampler_output_no_logprobs: build the prompt logprobs for
this record when requested, then either an empty-sample record
(non-terminal chunk, do_sample false) or a record carrying the next
sampled token id with rank -1, logprob 0.0 and empty top-k lists. -/
def serializeStep (sampled_token_ids_list : List Int)
    (acc : List CompletionSequenceGroupOutput × Nat)
    (seq : SequenceGroupMetadata) :
    List CompletionSequenceGroupOutput × Nat :=
  let prompt_logprobs := serializePromptLogprobs seq
  if seq.do_sample then
    let sampleRecord : LogprobsOutput :=
      { token_id := sampled_token_ids_list.getD acc.2 0,
        token_id_logprob_rank := -1,
        token_id_logprob := PyFloat.val 0,
        topk_token_ids := [], topk_logprobs := [] }
    (acc.1 ++
      [{ samples := [{ seq_id := seq.seq_id, sample := sampleRecord }],
         prompt_logprobs := prompt_logprobs }],
     acc.2 + 1)
  else
    (acc.1 ++ [{ samples := [], prompt_logprobs := prompt_logprobs }], acc.2)

/-- Embedding of SpecDecodeWorker._serialize_sampler_output_no_logprobs:
when any sequence requests prompt logprobs, drop the sampled slots whose
token is INVALID_TOKEN_ID, then walk the batch emitting one record per
sequence, consuming one sampled token per do_sample sequence. -/
def _serialize_sampler_output_no_logprobs
    (seqs : List SequenceGroupMetadata) (sampled_token_ids : List Int) :
    List CompletionSequenceGroupOutput :=
  let seq_output_prompt_logprobs := seqs.map needsPromptLogprobs
  let sampled_token_ids_list :=
    if seq_output_prompt_logprobs.any id then
      sampled_token_ids.filter (fun t => t ≠ VLLM_INVALID_TOKEN_ID)
    else sampled_token_ids
  (seqs.foldl (serializeStep sampled_token_ids_list) ([], 0)).1

/-- Embedding of SpecDecodeWorker._create_dummy_logprob_lists: the four
dummy lists (accepted-token ranks, accepted-token logprobs, top-k
logprobs, top-k token ids) built when logprobs are disabled: ranks -1,
logprobs 0.0, and top-k inner lists of num_top_k None entries. -/
def _create_dummy_logprob_lists (batch_size num_steps num_top_k : Nat) :
    List (List Int) × List (List PyFloat) ×
    List (List (List (Option PyFloat))) × List (List (List (Option Int))) :=
  (List.replicate num_steps (List.replicate batch_size (-1)),
   List.replicate num_steps (List.replicate batch_size (PyFloat.val 0)),
   List.replicate num_steps (List.replicate batch_size
     (List.replicate num_top_k (none : Option PyFloat))),
   List.replicate num_steps (List.replicate batch_size
     (List.replicate num_top_k (none : Option Int))))

/-- A logprob record carrying only sentinels: rank -1, logprob 0.0,
empty top-k lists. -/
def sentinelLogprob (e : LogprobsOutput) : Prop :=
  e.token_id_logprob_rank = -1 ∧ e.token_id_logprob = PyFloat.val 0 ∧
  e.topk_token_ids = [] ∧ e.topk_logprobs = []

/-- An output record of the no-logprob serialization path: all its
samples and all its prompt-logprob entries carry only sentinels. -/
def sentinelOutput (o : CompletionSequenceGroupOutput) : Prop :=
  (∀ s ∈ o.samples, sentinelLogprob s.sample) ∧
  (∀ pl, o.prompt_logprobs = some pl → ∀ e ∈ pl, sentinelLogprob e)

lemma serializePromptLogprobs_sentinel (seq : SequenceGroupMetadata)
    (pl : List LogprobsOutput)
    (h : serializePromptLogprobs seq = some pl) :
    ∀ e ∈ pl, sentinelLogprob e := by
  unfold serializePromptLogprobs at h
  split at h
  · rw [Option.some.injEq] at h
    subst h
    intro e he
    rw [List.mem_map] at he
    obtain ⟨p, _, rfl⟩ := he
    exact ⟨rfl, rfl, rfl, rfl⟩
  · exact absurd h (by simp)

lemma serializeStep_new_sentinel (sl : List Int)
    (acc : List CompletionSequenceGroupOutput × Nat)
    (seq : SequenceGroupMetadata) (o : CompletionSequenceGroupOutput)
    (ho : o ∈ (serializeStep sl acc seq).1) :
    o ∈ acc.1 ∨ sentinelOutput o := by
  simp only [serializeStep] at ho
  by_cases hds : seq.do_sample = true
  · rw [if_pos hds] at ho
    simp only [List.mem_append, List.mem_singleton] at ho
    rcases ho with h | h
    · exact Or.inl h
    · subst h
      refine Or.inr ⟨?_, ?_⟩
      · intro s hs
        simp only [List.mem_singleton] at hs
        subst hs
        exact ⟨rfl, rfl, rfl, rfl⟩
      · intro pl hpl
        exact serializePromptLogprobs_sentinel seq pl hpl
  · rw [if_neg hds] at ho
    simp only [List.mem_append, List.mem_singleton] at ho
    rcases ho with h | h
    · exact Or.inl h
    · subst h
      refine Or.inr ⟨?_, ?_⟩
      · intro s hs
        simp at hs
      · intro pl hpl
        exact serializePromptLogprobs_sentinel seq pl hpl

lemma serialize_fold_sentinel (seqs : List SequenceGroupMetadata)
    (sl : List Int) (acc : List CompletionSequenceGroupOutput × Nat)
    (hacc : ∀ o ∈ acc.1, sentinelOutput o) :
    ∀ o ∈ (seqs.foldl (serializeStep sl) acc).1, sentinelOutput o := by
  induction seqs generalizing acc with
  | nil => exact hacc
  | cons s rest ih =>
    rw [List.foldl_cons]
    apply ih
    intro o ho
    rcases serializeStep_new_sentinel sl acc s o ho with h | h
    · exact hacc o h
    · exact h

/-- A default (empty) output record, used only to read concrete entries
out of computed output lists. -/
def emptyOutputRecord : CompletionSequenceGroupOutput :=
  { samples := [], prompt_logprobs := none }

/-- A default sample record, used only to read concrete entries out of
computed output lists. -/
def defaultLogprobRecord : LogprobsOutput :=
  { token_id := 0, token_id_logprob_rank := 0,
    token_id_logprob := PyFloat.val 0, topk_token_ids := [],
    topk_logprobs := [] }

/-- A default sample entry, used only to read concrete entries out of
computed output lists. -/
def defaultSampleRecord : SeqGroupSample :=
  { seq_id := 0, sample := defaultLogprobRecord }

/-- C8 (amended): with disable_logprobs, every logprob value the two
no-logprob paths emit is the 0.0 sentinel with rank -1; the dummy lists
built by _create_dummy_logprob_lists carry top-k lists of exactly
num_top_k (the scorer's max_logprobs) None sentinel entries; but the
token-only serialization path (_serialize_sampler_output_no_logprobs)
emits records whose top-k lists are empty rather than max_logprobs
long. -/
theorem disable_logprobs_sentinel_outputs :
    (∀ batch_size num_steps num_top_k : Nat,
      (∀ r ∈ (_create_dummy_logprob_lists batch_size num_steps
          num_top_k).1, ∀ x ∈ r, x = -1) ∧
      (∀ r ∈ (_create_dummy_logprob_lists batch_size num_steps
          num_top_k).2.1, ∀ x ∈ r, x = PyFloat.val 0) ∧
      (∀ r ∈ (_create_dummy_logprob_lists batch_size num_steps
          num_top_k).2.2.1, ∀ tl ∈ r,
        tl.length = num_top_k ∧ ∀ x ∈ tl, x = none) ∧
      (∀ r ∈ (_create_dummy_logprob_lists batch_size num_steps
          num_top_k).2.2.2, ∀ tl ∈ r,
        tl.length = num_top_k ∧ ∀ x ∈ tl, x = none)) ∧
    (∀ (seqs : List SequenceGroupMetadata) (sampled : List Int),
      ∀ o ∈ _serialize_sampler_output_no_logprobs seqs sampled,
        sentinelOutput o) := by
  constructor
  · intro batch_size num_steps num_top_k
    refine ⟨?_, ?_, ?_, ?_⟩
    · intro r hr x hx
      rw [List.eq_of_mem_replicate hr] at hx
      exact List.eq_of_mem_replicate hx
    · intro r hr x hx
      rw [List.eq_of_mem_replicate hr] at hx
      exact List.eq_of_mem_replicate hx
    · intro r hr tl htl
      rw [List.eq_of_mem_replicate hr] at htl
      rw [List.eq_of_mem_replicate htl]
      exact ⟨List.length_replicate _ _,
        fun x hx => List.eq_of_mem_replicate hx⟩
    · intro r hr tl htl
      rw [List.eq_of_mem_replicate hr] at htl
      rw [List.eq_of_mem_replicate htl]
      exact ⟨List.length_replicate _ _,
        fun x hx => List.eq_of_mem_replicate hx⟩
  · intro seqs sampled o ho
    simp only [_serialize_sampler_output_no_logprobs] at ho
    exact serialize_fold_sentinel seqs _ ([], 0)
      (fun o' ho' => absurd ho' (List.not_mem_nil o')) o ho

/-- Witness for the amended C8: the record the serialization path emits
for a concrete do_sample prompt carries only sentinel logprob data. -/
theorem disable_logprobs_sentinel_outputs_witness :
    sentinelOutput ((_serialize_sampler_output_no_logprobs
      [promptOnlyRecord] [7]).getD 0 emptyOutputRecord) := by
  apply disable_logprobs_sentinel_outputs.2 [promptOnlyRecord] [7]
  decide

/-- Counterexample to C8 as stated: for a scorer configured with
max_logprobs = 1, the no-spec serialization path emits a sample whose
top-k list has length 0, while the claim requires every emitted top-k
list to have the configured length 1 (which the dummy lists do have):
0 is not 1. -/
theorem disable_logprobs_topk_length_counterexample :
    (((_serialize_sampler_output_no_logprobs [promptOnlyRecord]
        [7]).getD 0 emptyOutputRecord).samples.getD 0
        defaultSampleRecord).sample.topk_token_ids.length = 0 ∧
    (((_create_dummy_logprob_lists 1 1 1).2.2.2.getD 0 []).getD 0
        []).length = 1 ∧
    (0 : Nat) ≠ 1 := by
  refine ⟨rfl, rfl, by decide⟩

/-- Bounded descending search for the floor of log2: the largest
exponent x ≤ fuel with 2^x ≤ n (0 when n is 0). -/
def log2Aux : Nat → Nat → Nat
  | 0, _ => 0
  | k + 1, n => if 2 ^ (k + 1) ≤ n then k + 1 else log2Aux k n

/-- Floor of log2, exact for 1 ≤ n < 2^2201, which covers every value
the float model below can meet before Python would raise OverflowError
(quotients below 2^1024, scaled by 2^1100). -/
def flog2 (n : Nat) : Nat := log2Aux 2200 n

/-- The IEEE-754 binary64 exponent of the ulp of a/b: 52 less than the
floor of log2(a/b), clamped below at -1074 (subnormals).  The floor of
log2(a/b) is recovered as flog2(a * 2^1100 / b) - 1100, exact whenever
a/b is at least 2^-1100 and below 2^1101. -/
def fdivExponent (a b : Nat) : Int :=
  max (-1074) ((flog2 (a * 2 ^ 1100 / b) : Int) - 1152)

/-- Round A/B to the nearest integer, ties to even: the mantissa of the
correctly rounded quotient. -/
def roundMantissa (A B : Nat) : Nat :=
  let q := A / B
  let r := A % B
  if 2 * r < B then q
  else if B < 2 * r then q + 1
  else if q % 2 = 0 then q else q + 1

/-- The correctly rounded IEEE-754 binary64 value of a/b as a pair
(mantissa M, ulp exponent e) denoting M * 2^e.  CPython's true division
of two ints computes exactly this correctly rounded double (the model
assumes the quotient stays below the 2^1024 overflow threshold, beyond
which Python raises OverflowError). -/
def fdivNat (a b : Nat) : Nat × Int :=
  if a = 0 then (0, 0)
  else
    let e := fdivExponent a b
    (roundMantissa (a * 2 ^ (-e).toNat) (b * 2 ^ e.toNat), e)

/-- Python's int() truncation (toward zero) of the nonnegative double
M * 2^e. -/
def truncFloat (p : Nat × Int) : Nat :=
  if 0 ≤ p.2 then p.1 * 2 ^ p.2.toNat else p.1 / 2 ^ (-p.2).toNat

/-- Embedding of split_num_cache_blocks_evenly: the source computes
int(total_num_gpu_blocks * scorer_cache_block_size_bytes /
(proposer_cache_block_size_bytes + scorer_cache_block_size_bytes)).
The products of Python ints are exact; the single / is float division,
i.e. the correctly rounded double of the exact rational quotient, and
int() truncates it. -/
def split_num_cache_blocks_evenly (scorer_cache_block_size_bytes
    proposer_cache_block_size_bytes total_num_gpu_blocks : Nat) : Nat :=
  truncFloat (fdivNat
    (total_num_gpu_blocks * scorer_cache_block_size_bytes)
    (proposer_cache_block_size_bytes + scorer_cache_block_size_bytes))

lemma log2Aux_zero (k : Nat) : log2Aux k 0 = 0 := by
  induction k with
  | zero => rfl
  | succ k ih => simp [log2Aux, ih]

lemma log2Aux_spec (k n : Nat) (h1 : 1 ≤ n) (h2 : n < 2 ^ (k + 1)) :
    2 ^ (log2Aux k n) ≤ n ∧ n < 2 ^ (log2Aux k n + 1) := by
  induction k with
  | zero =>
    simp only [log2Aux]
    exact ⟨h1, h2⟩
  | succ k ih =>
    simp only [log2Aux]
    split
    case isTrue h => exact ⟨h, h2⟩
    case isFalse h => exact ih (by omega)

lemma flog2_zero : flog2 0 = 0 := log2Aux_zero 2200

lemma flog2_spec (n : Nat) (h1 : 1 ≤ n) (h2 : n < 2 ^ 2201) :
    2 ^ (flog2 n) ≤ n ∧ n < 2 ^ (flog2 n + 1) :=
  log2Aux_spec 2200 n h1 h2

lemma roundMantissa_cases (A B : Nat) :
    roundMantissa A B = A / B ∨
    (roundMantissa A B = A / B + 1 ∧ B ≤ 2 * (A % B)) := by
  simp only [roundMantissa]
  split_ifs with h1 h2 h3
  · exact Or.inl rfl
  · exact Or.inr ⟨rfl, le_of_lt h2⟩
  · exact Or.inl rfl
  · exact Or.inr ⟨rfl, by omega⟩

lemma truncFloat_nonpos (M : Nat) (e : Int) (he : e ≤ 0) :
    truncFloat (M, e) = M / 2 ^ (-e).toNat := by
  unfold truncFloat
  by_cases h0 : (0:Int) ≤ e
  · have he0 : e = 0 := le_antisymm he h0
    subst he0
    simp
  · simp [h0]

lemma bad_case_bounds (p b t : Nat) (hb : 0 < b) (hp : p < b)
    (hs : (p * 2 ^ t) / b = 2 ^ t - 1)
    (hr : b ≤ 2 * ((p * 2 ^ t) % b)) :
    2 ^ (t + 1) ≤ b ∧ b * (2 ^ (t + 1) - 1) ≤ 2 * (p * 2 ^ t) := by
  have hX : 1 ≤ 2 ^ t := Nat.one_le_two_pow
  have hdm := Nat.div_add_mod (p * 2 ^ t) b
  rw [hs] at hdm
  have hXz : (1:Int) ≤ 2 ^ t := by exact_mod_cast hX
  have f3 : (b:Int) * (2 ^ t - 1) + ((p * 2 ^ t) % b : Nat) =
      (p:Int) * 2 ^ t := by
    have := hdm
    zify [hX] at this
    push_cast
    linarith [this]
  have f5 : (p:Int) * 2 ^ t ≤ ((b:Int) - 1) * 2 ^ t := by
    have hpz : (p:Int) ≤ (b:Int) - 1 := by
      have h' : p + 1 ≤ b := hp
      omega
    have hXpos : (0:Int) ≤ 2 ^ t := by positivity
    exact mul_le_mul_of_nonneg_right hpz hXpos
  have f6 : (b:Int) ≤ 2 * ((p * 2 ^ t) % b : Nat) := by exact_mod_cast hr
  have hXsucc : (2:Int) ^ (t + 1) = 2 * 2 ^ t := by rw [pow_succ]; ring
  constructor
  · have hz : (2:Int) ^ (t + 1) ≤ b := by
      rw [hXsucc]
      nlinarith [f3, f5, f6]
    exact_mod_cast hz
  · have h1 : (1:Nat) ≤ 2 ^ (t + 1) := Nat.one_le_two_pow
    have hz : (b:Int) * (2 ^ (t + 1) - 1) ≤ 2 * ((p:Int) * 2 ^ t) := by
      rw [hXsucc]
      nlinarith [f3, f5, f6]
    zify [h1]
    linarith [hz]

lemma clamped_bad_impossible (p b : Nat) (hpa : p < 2 ^ 53)
    (hb : 2 ^ 1075 ≤ b) (h : b * (2 ^ 1075 - 1) ≤ 2 * (p * 2 ^ 1074)) :
    False := by
  have h1 : 2 * (p * 2 ^ 1074) < 2 ^ 1128 := by
    have hlt : p * 2 ^ 1074 < 2 ^ 53 * 2 ^ 1074 :=
      Nat.mul_lt_mul_of_lt_of_le hpa (le_refl _) (by positivity)
    have hpp : (2:Nat) ^ 53 * 2 ^ 1074 = 2 ^ 1127 := by rw [← pow_add]
    have hpp2 : (2:Nat) * 2 ^ 1127 = 2 ^ 1128 := by rw [← pow_succ']
    omega
  have ha' : (2:Nat) ^ 1074 ≤ 2 ^ 1075 - 1 := by
    have hpp : (2:Nat) ^ 1075 = 2 * 2 ^ 1074 := by rw [← pow_succ']
    have := Nat.one_le_two_pow (n := 1074)
    omega
  have h2 : (2:Nat) ^ 2149 ≤ b * (2 ^ 1075 - 1) := by
    calc (2:Nat) ^ 2149 = 2 ^ 1075 * 2 ^ 1074 := by rw [← pow_add]
    _ ≤ b * (2 ^ 1075 - 1) := Nat.mul_le_mul hb ha'
  have hcon : (2:Nat) ^ 2149 < 2 ^ 1128 := lt_of_le_of_lt (h2.trans h) h1
  have := (Nat.pow_lt_pow_iff_right (a := 2) (by norm_num)).mp hcon
  omega

set_option maxRecDepth 8000 in
lemma truncFloat_fdivNat_eq_div (a b : Nat) (hb : 0 < b)
    (ha : a < 2 ^ 53) : truncFloat (fdivNat a b) = a / b := by
  by_cases ha0 : a = 0
  · subst ha0
    simp [fdivNat, truncFloat]
  · have hNlt : a * 2 ^ 1100 / b < 2 ^ 1153 := by
      have hmul : a * 2 ^ 1100 < 2 ^ 53 * 2 ^ 1100 :=
        Nat.mul_lt_mul_of_lt_of_le ha (le_refl _) (by positivity)
      have hle := Nat.div_le_self (a * 2 ^ 1100) b
      have hpp : (2:Nat) ^ 53 * 2 ^ 1100 = 2 ^ 1153 := by rw [← pow_add]
      omega
    have hl_le : flog2 (a * 2 ^ 1100 / b) ≤ 1152 := by
      by_cases hN0 : a * 2 ^ 1100 / b = 0
      · rw [hN0, flog2_zero]; omega
      · have hsp := (flog2_spec (a * 2 ^ 1100 / b)
          (Nat.one_le_iff_ne_zero.mpr hN0)
          (lt_trans hNlt (Nat.pow_lt_pow_right (by norm_num)
            (by norm_num)))).1
        by_contra hcon
        push_neg at hcon
        have hmono : (2:Nat) ^ 1153 ≤ 2 ^ flog2 (a * 2 ^ 1100 / b) :=
          Nat.pow_le_pow_right (by norm_num) (by omega)
        omega
    set e := fdivExponent a b with hedef
    have hee : e = max (-1074)
        ((flog2 (a * 2 ^ 1100 / b) : Int) - 1152) := hedef
    have hele : e ≤ 0 := by
      rw [hee]
      apply max_le
      · norm_num
      · have := hl_le; omega
    have hfd : fdivNat a b =
        (roundMantissa (a * 2 ^ (-e).toNat) (b * 2 ^ e.toNat), e) := by
      rw [fdivNat, if_neg ha0]
    rw [hfd, truncFloat_nonpos _ _ hele]
    have hetn : e.toNat = 0 := Int.toNat_of_nonpos hele
    rw [hetn, pow_zero, mul_one]
    set t := (-e).toNat with htdef
    have htcases :
        (78 ≤ flog2 (a * 2 ^ 1100 / b) ∧
          t = 1152 - flog2 (a * 2 ^ 1100 / b)) ∨
        (flog2 (a * 2 ^ 1100 / b) < 78 ∧ t = 1074) := by
      by_cases hcl : 78 ≤ flog2 (a * 2 ^ 1100 / b)
      · left
        refine ⟨hcl, ?_⟩
        have hemax : e = (flog2 (a * 2 ^ 1100 / b) : Int) - 1152 := by
          rw [hee]
          exact max_eq_right (by omega)
        rw [htdef, hemax]
        omega
      · right
        refine ⟨by omega, ?_⟩
        have hemax : e = -1074 := by
          rw [hee]
          exact max_eq_left (by omega)
        rw [htdef, hemax]
        rfl
    clear_value t
    clear_value e
    have hpow : (0:Nat) < 2 ^ t := by positivity
    have hdecomp : a * 2 ^ t = b * (a / b * 2 ^ t) + (a % b) * 2 ^ t := by
      conv_lhs => rw [← Nat.div_add_mod a b]
      ring
    have hq0 : (a * 2 ^ t) / b = a / b * 2 ^ t + (a % b) * 2 ^ t / b := by
      rw [hdecomp, Nat.mul_add_div hb]
    have hr0 : (a * 2 ^ t) % b = ((a % b) * 2 ^ t) % b := by
      rw [hdecomp, Nat.mul_add_mod]
    set s := (a % b) * 2 ^ t / b with hsdef
    have hslt : s < 2 ^ t := by
      rw [hsdef]
      rw [Nat.div_lt_iff_lt_mul hb]
      calc (a % b) * 2 ^ t < b * 2 ^ t :=
        Nat.mul_lt_mul_of_lt_of_le (Nat.mod_lt a hb) (le_refl _) hpow
      _ = 2 ^ t * b := Nat.mul_comm _ _
    rcases roundMantissa_cases (a * 2 ^ t) b with hM | ⟨hM, hround⟩
    · rw [hM, hq0, Nat.add_comm, Nat.add_mul_div_right _ _ hpow,
        Nat.div_eq_of_lt hslt, Nat.zero_add]
    · by_cases hsmall : s + 1 < 2 ^ t
      · rw [hM, hq0, Nat.add_assoc, Nat.add_comm,
          Nat.add_mul_div_right _ _ hpow, Nat.div_eq_of_lt hsmall,
          Nat.zero_add]
      · exfalso
        have hseq : (a % b) * 2 ^ t / b = 2 ^ t - 1 := by
          rw [← hsdef]
          omega
        rw [hr0] at hround
        obtain ⟨hbig, hineq⟩ := bad_case_bounds (a % b) b t hb
          (Nat.mod_lt a hb) hseq hround
        rcases htcases with ⟨hcl, htval⟩ | ⟨hcl, htval⟩
        · have hN0 : a * 2 ^ 1100 / b ≠ 0 := by
            intro h0
            rw [h0, flog2_zero] at hcl
            omega
          have hlow := (flog2_spec (a * 2 ^ 1100 / b)
            (Nat.one_le_iff_ne_zero.mpr hN0)
            (lt_trans hNlt (Nat.pow_lt_pow_right (by norm_num)
              (by norm_num)))).1
          have hdb : (a * 2 ^ 1100 / b) * b ≤ a * 2 ^ 1100 :=
            Nat.div_mul_le_self _ _
          have h1 : 2 ^ (t + 1) * 2 ^ flog2 (a * 2 ^ 1100 / b) ≤
              a * 2 ^ 1100 := by
            calc 2 ^ (t + 1) * 2 ^ flog2 (a * 2 ^ 1100 / b) ≤
                b * 2 ^ flog2 (a * 2 ^ 1100 / b) :=
              Nat.mul_le_mul_right _ hbig
            _ ≤ b * (a * 2 ^ 1100 / b) := Nat.mul_le_mul_left _ hlow
            _ = (a * 2 ^ 1100 / b) * b := Nat.mul_comm _ _
            _ ≤ a * 2 ^ 1100 := hdb
          have hexp : 2 ^ (t + 1) * 2 ^ flog2 (a * 2 ^ 1100 / b) =
              2 ^ 53 * 2 ^ 1100 := by
            rw [← pow_add, ← pow_add]
            congr 1
            omega
          rw [hexp] at h1
          have hfin : 2 ^ 53 ≤ a :=
            Nat.le_of_mul_le_mul_right h1
              (by positivity : (0:Nat) < 2 ^ 1100)
          omega
        · rw [htval] at hbig hineq
          exact clamped_bad_impossible (a % b) b
            (lt_of_le_of_lt (Nat.mod_le a b) ha)
            (by simpa using hbig) (by simpa using hineq)

/-- C5 (amended): split_num_cache_blocks_evenly returns the truncated
correctly rounded double of T*S/(S+P); whenever the product T*S is below
2^53 this equals the exact integer floor of T*S/(S+P), and the returned
value n then satisfies n*(S+P) ≤ T*S < (n+1)*(S+P).  For astronomically
large block counts (T*S at or beyond 2^53) the float division can round
up across an integer and the exact floor property fails, see the
counterexample. -/
theorem split_num_cache_blocks_evenly_floor (S P T : Nat)
    (hS : 0 < S) (hP : 0 < P) (hbound : T * S < 2 ^ 53) :
    split_num_cache_blocks_evenly S P T = T * S / (S + P) ∧
    split_num_cache_blocks_evenly S P T * (S + P) ≤ T * S ∧
    T * S < (split_num_cache_blocks_evenly S P T + 1) * (S + P) := by
  have hb : 0 < P + S := by omega
  have h1 : split_num_cache_blocks_evenly S P T = T * S / (P + S) :=
    truncFloat_fdivNat_eq_div (T * S) (P + S) hb hbound
  have hcomm : P + S = S + P := Nat.add_comm P S
  rw [hcomm] at h1
  refine ⟨h1, ?_, ?_⟩
  · rw [h1]
    exact Nat.div_mul_le_self _ _
  · rw [h1]
    have hmod := Nat.div_add_mod (T * S) (S + P)
    have hmlt := Nat.mod_lt (T * S) (show 0 < S + P by omega)
    calc T * S = (S + P) * (T * S / (S + P)) + T * S % (S + P) := hmod.symm
    _ < (S + P) * (T * S / (S + P)) + (S + P) := by omega
    _ = (T * S / (S + P) + 1) * (S + P) := by ring

/-- Witness for the amended C5 at the two concrete inputs of the claim:
(S=100, P=60, T=160) yields 100 and (S=100, P=100, T=7) yields 3. -/
theorem split_num_cache_blocks_evenly_floor_witness :
    split_num_cache_blocks_evenly 100 60 160 = 100 ∧
    split_num_cache_blocks_evenly 100 100 7 = 3 := by
  have h1 := (split_num_cache_blocks_evenly_floor 100 60 160 (by decide)
    (by decide) (by decide)).1
  have h2 := (split_num_cache_blocks_evenly_floor 100 100 7 (by decide)
    (by decide) (by decide)).1
  rw [h1, h2]
  exact ⟨by decide, by decide⟩

set_option maxRecDepth 100000 in
/-- Counterexample to C5 as stated: at S=1, P=2, T=29999999999999999 the
true quotient is 10^16 - 1/3, whose nearest double is exactly 10^16, so
the code returns 10^16 while the exact floor is 10^16 - 1; the claimed
bound n*(S+P) ≤ T*S also fails there. -/
theorem split_num_cache_blocks_evenly_counterexample :
    split_num_cache_blocks_evenly 1 2 29999999999999999 =
      10000000000000000 ∧
    29999999999999999 * 1 / (1 + 2) = 9999999999999999 ∧
    ¬ (10000000000000000 * (1 + 2) ≤ 29999999999999999 * 1) := by
  refine ⟨by decide, by decide, by decide⟩
